import Mathlib

/-!
Shallow embedding of the `canvas-prototype` collaborative-drawing system:
a WebSocket server (room history store, broadcast router, per-connection
session pipeline) and the client-side remote-stroke reconstructor and
local move-batching layer from `CollaborativeCanvas.tsx`.

Modelling conventions:
* JS `Map` objects are association lists with `Map.set` replace-or-append
  semantics (`mapGet` / `mapSet`).
* A WebSocket `readyState` is a `Nat`; `WebSocket.OPEN = 1` as in the `ws`
  library and the browser API.
* A connection's `room` field starts as `null` and is later assigned a
  string, so it is an `Option String`; the JS truthiness test `!ws.room`
  is `truthyRoom` (false for `null` and for the empty string).
* Network sends are recorded as explicit output values (`Out`, and a
  ghost `sent` outbox on the client) instead of I/O side effects.
* `JSON.parse` of an incoming frame yields `Option WireMsg`: `none` for an
  unparseable payload, `some` for a parsed object.  The round trip
  `JSON.parse(JSON.stringify(x))` on a plain data object is the identity.
-/

namespace Canvas

/-- Canvas-space coordinates.  The system only stores and forwards points,
never computes with them, so integer coordinates are a faithful carrier. -/
abbrev Point := Int × Int

/-- `WebSocket.OPEN` ready-state constant. -/
def OPEN : Nat := 1

/-! ## JS `Map` as an association list -/

/-- `Map.get` / `Map.has`: first binding of the key, if any. -/
def mapGet {β : Type} (m : List (String × β)) (k : String) : Option β :=
  match m with
  | [] => none
  | (k0, v) :: t => if k0 = k then some v else mapGet t k

/-- `Map.set`: replace the existing binding in place, else append. -/
def mapSet {β : Type} (m : List (String × β)) (k : String) (v : β) :
    List (String × β) :=
  match m with
  | [] => [(k, v)]
  | (k0, v0) :: t => if k0 = k then (k, v) :: t else (k0, v0) :: mapSet t k v

/-! ## Server (`src/unnamed/part_000`) -/

/-- A parsed wire message as the server sees it: the server reads only the
`type` tag and the `room` field; everything else (`userId`, `color`,
points, …) is carried opaquely in `payload` and forwarded verbatim. -/
structure WireMsg where
  type : String
  room : String
  payload : String
  deriving DecidableEq, Repr

/-- One live connection as the server sees it: the `ws` object of the
`connection` handler.  `sid` stands for the object's JS reference identity
(`client === except` compares references). -/
structure Session where
  sid : Nat
  readyState : Nat
  room : Option String
  deriving DecidableEq, Repr

/-- JS truthiness of `ws.room : string | null`: `null` and `""` are falsy. -/
def truthyRoom : Option String → Bool
  | none => false
  | some r => !(r = "")

/-- An outbound transport send performed by the server. -/
inductive Out where
  /-- `ws.send` of a `history` bootstrap frame to the joining session. -/
  | history (sid : Nat) (room : String) (events : List WireMsg)
  /-- `client.send` of a (stamped, serialized) event during `broadcast`. -/
  | event (sid : Nat) (m : WireMsg)
  deriving DecidableEq, Repr

/-- Whole-server state.  `log` is a ghost trace that records every event
appended to any room's history, in server arrival order; it exists only to
state ordering properties and never influences behaviour. -/
structure ServerState where
  roomHistory : List (String × List WireMsg)
  clients : List Session
  log : List WireMsg
  deriving DecidableEq, Repr

/-- The server before any connection: `roomHistory` empty, no clients. -/
def initServer : ServerState := { roomHistory := [], clients := [], log := [] }

/-- `broadcast(room, data, except)` (lines 9–16 of the server): walk
`wss.clients`, skip a client whose transport is not `OPEN`, skip a client
bound to a different room, skip the excluded sender, send to the rest. -/
def broadcastSends (clients : List Session) (room : String) (data : WireMsg)
    (exceptSid : Nat) : List Out :=
  clients.filterMap fun c =>
    if c.readyState ≠ OPEN then none
    else if c.room ≠ some room then none
    else if c.sid = exceptSid then none
    else some (Out.event c.sid data)

/-- `wss.clients` lookup of the connection object handling this message. -/
def findClient (clients : List Session) (sid : Nat) : Option Session :=
  clients.find? fun c => c.sid = sid

/-- The `ws.room = msg.room` assignment on the connection object. -/
def bindRoom (clients : List Session) (sid : Nat) (r : String) : List Session :=
  clients.map fun c => if c.sid = sid then { c with room := some r } else c

/-- The `ws.on("message")` handler (lines 21–52), for one incoming frame on
connection `sid`.  `raw = none` is an unparseable payload (the `catch`
branch).  Returns the new server state and the sends performed.
`roomHistory.get(ws.room)` in the event branch is modelled with a `getD []`
fallback; on every reachable state the entry exists (see
`bound_room_has_history`), since `join` creates it before binding is
observable. -/
def serverStep (s : ServerState) (sid : Nat) (raw : Option WireMsg) :
    ServerState × List Out :=
  match findClient s.clients sid with
  | none => (s, [])
  | some ws =>
    match raw with
    | none => (s, [])
    | some msg =>
      if msg.type = "join" then
        let clients := bindRoom s.clients sid msg.room
        let hist :=
          if (mapGet s.roomHistory msg.room).isSome then s.roomHistory
          else mapSet s.roomHistory msg.room []
        let evs := (mapGet hist msg.room).getD []
        ({ s with clients := clients, roomHistory := hist },
          [Out.history sid msg.room evs])
      else if truthyRoom ws.room then
        let r := ws.room.getD ""
        let stamped := { msg with room := r }
        let hist :=
          mapSet s.roomHistory r ((mapGet s.roomHistory r).getD [] ++ [stamped])
        ({ s with roomHistory := hist, log := s.log ++ [stamped] },
          broadcastSends s.clients r stamped sid)
      else (s, [])

/-- Transport-level happenings the server reacts to. -/
inductive SAct where
  /-- `wss.on("connection")`: a new client appears with `ws.room = null`.
  A `sid` already in use denotes the same object and adds nothing. -/
  | connect (sid : Nat)
  /-- One frame arriving on connection `sid`. -/
  | recv (sid : Nat) (raw : Option WireMsg)
  /-- The transport closes: the client leaves `wss.clients`. -/
  | disconnect (sid : Nat)

/-- One transport action. -/
def serverAct (s : ServerState) (a : SAct) : ServerState × List Out :=
  match a with
  | SAct.connect sid =>
    if s.clients.any fun c => c.sid = sid then (s, [])
    else ({ s with clients := s.clients ++ [⟨sid, OPEN, none⟩] }, [])
  | SAct.recv sid raw => serverStep s sid raw
  | SAct.disconnect sid =>
    ({ s with clients := s.clients.filter fun c => ¬ c.sid = sid }, [])

/-- Run a sequence of transport actions, accumulating all sends in order. -/
def serverRun (s : ServerState) : List SAct → ServerState × List Out
  | [] => (s, [])
  | a :: rest =>
    ((serverRun (serverAct s a).1 rest).1,
     (serverAct s a).2 ++ (serverRun (serverAct s a).1 rest).2)

/-- The events currently stored for room `r` (empty if the room is absent). -/
def histEvents (s : ServerState) (r : String) : List WireMsg :=
  (mapGet s.roomHistory r).getD []

/-! ## Client: remote stroke reconstructor
(`CollaborativeCanvas.tsx`, `applyBegin` / `applyMove` / `handleRemoteEvent`
/ the `history` branch of `ws.onmessage`).  The 2D context is assumed
initialised (`ctxRef.current` non-null): the reconstructor's behaviour with
no canvas is a global no-op and is not the subject of any property here. -/

/-- `StrokeState` from the client: `{ drawing: boolean; last?: [x, y] }`. -/
structure StrokeState where
  drawing : Bool
  last : Option Point
  deriving DecidableEq, Repr

/-- A `begin` / `move` / `end` / `join` message as `handleRemoteEvent`
receives it (a `history` frame is unpacked before reaching it). -/
inductive CEvent where
  | begin (userId : String) (color : String) (width : Int) (p : Point)
  | move (userId : String) (pts : List Point)
  | endStroke (userId : String)
  | join (userId : String) (room : String)
  deriving DecidableEq, Repr

/-- 2D-context calls issued while reconstructing, in order. -/
inductive RenderOp where
  | setColor (c : String)
  | setWidth (w : Int)
  | beginPath
  | moveTo (p : Point)
  | lineTo (p : Point)
  | stroke
  deriving DecidableEq, Repr

/-- `applyBegin`: set styling, open a path at the begin point. -/
def applyBegin (color : String) (width : Int) (p : Point) : List RenderOp :=
  [RenderOp.setColor color, RenderOp.setWidth width,
   RenderOp.beginPath, RenderOp.moveTo p]

/-- `applyMove(ctx, from, pts)`: empty `pts` draws nothing; with no `from`
the polyline starts at `pts[0]`, otherwise at `from` through all of `pts`. -/
def applyMove (from? : Option Point) (pts : List Point) : List RenderOp :=
  match pts with
  | [] => []
  | p :: rest =>
    match from? with
    | none =>
      RenderOp.beginPath :: RenderOp.moveTo p ::
        (rest.map RenderOp.lineTo ++ [RenderOp.stroke])
    | some f =>
      RenderOp.beginPath :: RenderOp.moveTo f ::
        ((p :: rest).map RenderOp.lineTo ++ [RenderOp.stroke])

/-- The per-remote-user state map `remoteStrokeRef.current`. -/
def StatesMap := List (String × StrokeState)

instance : DecidableEq StatesMap := by
  unfold StatesMap; infer_instance

/-- `handleRemoteEvent`: dispatch one remote event against the state map,
returning the updated map and the context calls made.  On `move`,
`st.last = msg.pts[msg.pts.length - 1]` reads `undefined` past the end of
an empty array, hence `pts.getLast?`.  A `join` (or unknown) type matches
no branch and falls through untouched. -/
def handleRemoteEvent (states : StatesMap) (ev : CEvent) :
    StatesMap × List RenderOp :=
  match ev with
  | CEvent.begin u color width p =>
    (mapSet states u ⟨true, some p⟩, applyBegin color width p)
  | CEvent.move u pts =>
    let st := (mapGet states u).getD ⟨false, none⟩
    (mapSet states u ⟨true, pts.getLast?⟩, applyMove st.last pts)
  | CEvent.endStroke u => (mapSet states u ⟨false, none⟩, [])
  | CEvent.join _ _ => (states, [])

/-- The `history` branch of `ws.onmessage`: clear all remote state, then
feed every contained event through `handleRemoteEvent` in array order.
The pre-snapshot `states` argument is discarded by the `clear()`. -/
def replayHistory (_states : StatesMap) (evs : List CEvent) :
    StatesMap × List RenderOp :=
  evs.foldl
    (fun acc e =>
      let r := handleRemoteEvent acc.1 e
      (r.1, acc.2 ++ r.2))
    (([] : StatesMap), [])

/-! ## Client: local batching layer
(`CollaborativeCanvas.tsx`, `flushMoveBuffer` / `scheduleFlush` /
`onPointerDown` / `onPointerMove` / `onPointerUp`).  Local echo rendering
(immediate drawing of one's own stroke) goes to the canvas only and is
outside every property here; the model records buffer, timer, drawing flag
and the messages sent. -/

/-- A message the client sends, as built by the pointer handlers. -/
inductive CliMsg where
  | join (room : String) (userId : String)
  | begin (room : String) (userId : String) (color : String) (width : Int)
      (p : Point)
  | move (room : String) (userId : String) (pts : List Point)
  | endStroke (room : String) (userId : String)
  deriving DecidableEq, Repr

/-- Client-side mutable state touched by the send path.  `wsExists` is
`wsRef.current !== null`; `sent` is a ghost outbox recording every
`ws.send` in order. -/
structure ClientState where
  wsExists : Bool
  readyState : Nat
  localDrawing : Bool
  moveBuffer : List Point
  flushTimer : Bool
  sent : List CliMsg
  deriving DecidableEq, Repr

/-- `flushMoveBuffer()`: bail out unless the socket exists and is `OPEN`;
bail out on an empty buffer; otherwise `splice(0)` the whole buffer into
one `move` payload and send it. -/
def flushMoveBuffer (room userId : String) (s : ClientState) : ClientState :=
  if !s.wsExists || s.readyState ≠ OPEN then s
  else if s.moveBuffer.length = 0 then s
  else
    { s with
      moveBuffer := [],
      sent := s.sent ++ [CliMsg.move room userId s.moveBuffer] }

/-- `scheduleFlush()`: arm the 20 ms timer unless already armed.  (The
timer's firing is a separate action, `CAct.timerFire`.) -/
def scheduleFlush (s : ClientState) : ClientState :=
  if s.flushTimer then s else { s with flushTimer := true }

/-- Pointer / timer turns of the single-threaded client event loop. -/
inductive CAct where
  | pointerDown (p : Point)
  | pointerMove (p : Point)
  | timerFire
  | pointerUp

/-- One client turn.  `pointerDown` needs a live `OPEN` socket, sends a
`begin`, starts drawing.  `pointerMove` while drawing pushes the sample and
arms the timer.  A `timerFire` only happens while the timer is armed: it
clears the handle then flushes.  `pointerUp` while drawing (and with an
`OPEN` socket) stops drawing, force-flushes, then sends `end`. -/
def clientStep (room userId color : String) (width : Int) (s : ClientState) :
    CAct → ClientState
  | CAct.pointerDown p =>
    if !s.wsExists || s.readyState ≠ OPEN then s
    else
      { s with
        localDrawing := true,
        sent := s.sent ++ [CliMsg.begin room userId color width p] }
  | CAct.pointerMove p =>
    if !s.localDrawing then s
    else scheduleFlush { s with moveBuffer := s.moveBuffer ++ [p] }
  | CAct.timerFire =>
    if s.flushTimer then flushMoveBuffer room userId { s with flushTimer := false }
    else s
  | CAct.pointerUp =>
    if !s.localDrawing then s
    else if !s.wsExists || s.readyState ≠ OPEN then s
    else
      let s1 := flushMoveBuffer room userId { s with localDrawing := false }
      { s1 with sent := s1.sent ++ [CliMsg.endStroke room userId] }

/-- Run a sequence of client turns. -/
def clientRun (room userId color : String) (width : Int)
    (s : ClientState) : List CAct → ClientState
  | [] => s
  | a :: rest =>
    clientRun room userId color width
      (clientStep room userId color width s a) rest

/-- The points sampled by a sequence of turns, in order. -/
def samples : List CAct → List Point
  | [] => []
  | CAct.pointerMove p :: rest => p :: samples rest
  | _ :: rest => samples rest

/-- Concatenation of the `pts` arrays of the `move` messages in a list,
in list order; non-`move` messages contribute nothing. -/
def movePtsConcat : List CliMsg → List Point
  | [] => []
  | CliMsg.move _ _ pts :: rest => pts ++ movePtsConcat rest
  | _ :: rest => movePtsConcat rest

/-- Does a server output deliver exactly this serialized event? -/
def isEventData (data : WireMsg) : Out → Bool
  | Out.event _ d => d = data
  | _ => false

/-- Is this client message a `move`? -/
def isMoveMsg : CliMsg → Bool
  | CliMsg.move _ _ _ => true
  | _ => false

/-- A `move` message with an empty `pts` array is the one shape this
client never transmits; other message kinds are unconstrained. -/
def msgNonEmptyPts : CliMsg → Bool
  | CliMsg.move _ _ pts => !pts.isEmpty
  | _ => true

/-- Is this a mid-stroke client turn (a pointer sample or a timer fire,
as opposed to a stroke start or end)? -/
def midAct : CAct → Bool
  | CAct.pointerMove _ => true
  | CAct.timerFire => true
  | _ => false

/-- The invariant behind append-order fidelity: for every room, the
stored history equals the arrival-ordered log restricted to that room. -/
def histMatchesLog (s : ServerState) : Prop :=
  ∀ r, histEvents s r = s.log.filter fun e => e.room = r

/-- Every room a client is bound to has an entry in the history store
(`join` creates the entry in the same turn that sets the binding), so the
`roomHistory.get(ws.room)` in the event branch never misses. -/
def boundRoomsHaveHistory (s : ServerState) : Prop :=
  ∀ c ∈ s.clients, ∀ r : String, c.room = some r →
    (mapGet s.roomHistory r).isSome = true

/-- Is this tag one of the three drawing-event kinds? -/
def isDrawKind (t : String) : Bool :=
  t = "begin" || t = "move" || t = "end"

/-- Every parsed frame received in these actions is either a `join` or a
drawing event — what a well-behaved client of this protocol sends. -/
def actsDrawOnly (acts : List SAct) : Bool :=
  acts.all fun a =>
    match a with
    | SAct.recv _ (some m) => m.type = "join" || isDrawKind m.type
    | _ => true

/-- Every event stored in every room's history is a drawing event. -/
def histAllDrawKind (s : ServerState) : Bool :=
  s.roomHistory.all fun rv => rv.2.all fun e => isDrawKind e.type

/-! ## Map lemmas -/

lemma mapGet_mapSet_self {β : Type} (m : List (String × β)) (k : String)
    (v : β) : mapGet (mapSet m k v) k = some v := by
  induction m with
  | nil => simp [mapGet, mapSet]
  | cons kv t ih =>
    by_cases h : kv.1 = k <;> simp [mapGet, mapSet, h, ih]

lemma mapGet_mapSet_ne {β : Type} (m : List (String × β)) (k k2 : String)
    (v : β) (h : k ≠ k2) : mapGet (mapSet m k v) k2 = mapGet m k2 := by
  induction m with
  | nil => simp [mapGet, mapSet, h]
  | cons kv t ih =>
    by_cases h0 : kv.1 = k
    · simp [mapGet, mapSet, h0, h, Ne.symm h]
    · by_cases h2 : kv.1 = k2 <;>
        simp [mapGet, mapSet, h0, h2, ih, Ne.symm h]

/-! ## Broadcast router: exact delivery set (C2) -/

lemma mem_broadcastSends (clients : List Session) (room : String)
    (data : WireMsg) (exceptSid : Nat) (o : Out) :
    o ∈ broadcastSends clients room data exceptSid ↔
      ∃ c ∈ clients, c.readyState = OPEN ∧ c.room = some room ∧
        c.sid ≠ exceptSid ∧ o = Out.event c.sid data := by
  simp only [broadcastSends, List.mem_filterMap]
  constructor
  · rintro ⟨c, hc, hf⟩
    have h1 : c.readyState = OPEN := by
      by_contra h; simp [h] at hf
    have h2 : c.room = some room := by
      by_contra h; simp [h1, h] at hf
    have h3 : c.sid ≠ exceptSid := by
      intro h; simp [h1, h2, h] at hf
    refine ⟨c, hc, h1, h2, h3, ?_⟩
    simp [h1, h2, h3] at hf
    exact hf.symm
  · rintro ⟨c, hc, h1, h2, h3, rfl⟩
    exact ⟨c, hc, by simp [h1, h2, h3]⟩

/-- C2.  `broadcast(room, event, excludeSession)` sends the serialized
event and nothing else, and its delivery set is exactly the connected
sessions bound to `room` whose transport is `OPEN`, minus the excluded
(originating) session itself: no echo to the sender, and a non-`OPEN`
session is skipped (the output list carries no queueing or retry for it). -/
theorem broadcast_delivers_exactly_open_room_peers
    (clients : List Session) (room : String) (data : WireMsg)
    (exceptSid : Nat) :
    ((broadcastSends clients room data exceptSid).all (isEventData data)
        = true)
    ∧ (∀ sid : Nat,
        Out.event sid data ∈ broadcastSends clients room data exceptSid ↔
          sid ≠ exceptSid ∧
            ∃ c ∈ clients, c.sid = sid ∧ c.readyState = OPEN ∧
              c.room = some room) := by
  constructor
  · rw [List.all_eq_true]
    intro o ho
    rcases (mem_broadcastSends clients room data exceptSid o).mp ho with
      ⟨c, _, _, _, _, rfl⟩
    simp [isEventData]
  · intro sid
    rw [mem_broadcastSends]
    constructor
    · rintro ⟨c, hc, h1, h2, h3, he⟩
      cases he
      exact ⟨h3, c, hc, rfl, h1, h2⟩
    · rintro ⟨h3, c, hc, rfl, h1, h2⟩
      exact ⟨c, hc, h1, h2, h3, rfl⟩

/-! ## Remote stroke reconstructor (C4, C6, C8) -/

/-- C4 (counterexample).  An empty-`pts` `move` is not a state no-op: for
a user whose stored state is `{drawing: true, last: (1,2)}`, processing
`move` with `pts = []` changes the state (it clears `last`, because
`msg.pts[msg.pts.length - 1]` on an empty array yields `undefined`). -/
theorem move_empty_mutates_state :
    (handleRemoteEvent [("u", ⟨true, some (1, 2)⟩)] (CEvent.move "u" [])).1
      ≠ [("u", ⟨true, some (1, 2)⟩)] := by decide

/-- C4 (amended).  Processing a `move` whose `points` array is empty
renders nothing, but it is not a pure no-op on state: the receiving user's
entry is written as `{drawing: true, last: none}` (the drawing flag is
forced on and the last point is cleared). -/
theorem move_empty_renders_nothing_sets_state (states : StatesMap)
    (u : String) :
    handleRemoteEvent states (CEvent.move u []) =
      (mapSet states u ⟨true, none⟩, []) := rfl

/-- C6.  Replaying the same `History` snapshot twice in a row is
idempotent on the per-user state map: because each replay clears all
remote state before applying the events in array order, the state after
the second replay equals the state after the first. -/
theorem history_replay_idempotent (states : StatesMap)
    (evs : List CEvent) :
    (replayHistory (replayHistory states evs).1 evs).1 =
      (replayHistory states evs).1 := rfl

/-- C8.  A `move` with a non-empty `points` array arriving for a user
with no stored `last` point is handled without error: the reconstructor
emits a polyline that starts at `points[0]` and passes through exactly the
supplied points, and afterwards that user's state is
`{drawing: true, last: the final supplied point}`. -/
theorem move_without_last_draws_polyline (states : StatesMap) (u : String)
    (p : Point) (rest : List Point)
    (h : ((mapGet states u).getD ⟨false, none⟩).last = none) :
    handleRemoteEvent states (CEvent.move u (p :: rest)) =
      (mapSet states u
        ⟨true, some ((p :: rest).getLast (List.cons_ne_nil p rest))⟩,
       RenderOp.beginPath :: RenderOp.moveTo p ::
         (rest.map RenderOp.lineTo ++ [RenderOp.stroke])) := by
  simp only [handleRemoteEvent, h, applyMove]
  rw [List.getLast?_eq_getLast _ (List.cons_ne_nil p rest)]

/-- C8 witness: a `move` for user `"u"` with points `[(0,0), (1,1)]` and
no prior state draws the two-point polyline and stores `last = (1,1)`. -/
theorem move_without_last_draws_polyline_witness :
    handleRemoteEvent [] (CEvent.move "u" [((0 : Int), (0 : Int)), (1, 1)])
      = ([("u", ⟨true, some (1, 1)⟩)],
         [RenderOp.beginPath, RenderOp.moveTo (0, 0),
          RenderOp.lineTo (1, 1), RenderOp.stroke]) :=
  move_without_last_draws_polyline [] "u" (0, 0) [(1, 1)] (by decide)

/-! ## Local batching layer (C10) -/

/-- C10.  `flushMoveBuffer` transmits exactly when the socket exists, is
`OPEN`, and the buffer is non-empty; the transmitted `move` carries the
whole buffer in push order and the buffer is emptied.  In every other case
the client state (pending buffer included) is left untouched — points are
retained, not discarded.  Consequently a client whose outbox holds no
empty-`pts` `move` still holds none after a flush: this client never
transmits a `move` with an empty `pts` array. -/
theorem flushMoveBuffer_send_iff (room userId : String) (s : ClientState) :
    (s.wsExists = true ∧ s.readyState = OPEN ∧ s.moveBuffer ≠ [] →
      flushMoveBuffer room userId s =
        { s with moveBuffer := [],
                 sent := s.sent ++ [CliMsg.move room userId s.moveBuffer] })
    ∧ (s.wsExists = false ∨ s.readyState ≠ OPEN ∨ s.moveBuffer = [] →
      flushMoveBuffer room userId s = s)
    ∧ (s.sent.all msgNonEmptyPts = true →
      (flushMoveBuffer room userId s).sent.all msgNonEmptyPts = true) := by
  refine ⟨?_, ?_, ?_⟩
  · rintro ⟨h1, h2, h3⟩
    simp [flushMoveBuffer, h1, h2, List.length_eq_zero, h3]
  · intro h
    rcases h with h | h | h
    · simp [flushMoveBuffer, h]
    · simp [flushMoveBuffer, h]
    · simp [flushMoveBuffer, h]
  · intro h
    by_cases h3 : s.moveBuffer = []
    · simp [flushMoveBuffer, h3, h]
    · by_cases h1 : s.wsExists = true
      · by_cases h2 : s.readyState = OPEN
        · simp only [flushMoveBuffer, h1, h2, List.length_eq_zero, h3]
          simp [List.all_append, h, msgNonEmptyPts, h3]
        · simp [flushMoveBuffer, h2, h]
      · simp only [Bool.not_eq_true] at h1
        simp [flushMoveBuffer, h1, h]

/-- C10 witness: with an `OPEN` socket and buffer `[(1,2)]`, the flush
sends `move [(1,2)]` and empties the buffer. -/
theorem flushMoveBuffer_send_iff_witness :
    flushMoveBuffer "r1" "u1" ⟨true, OPEN, true, [(1, 2)], false, []⟩ =
      ⟨true, OPEN, true, [], false, [CliMsg.move "r1" "u1" [(1, 2)]]⟩ :=
  (flushMoveBuffer_send_iff "r1" "u1"
    ⟨true, OPEN, true, [(1, 2)], false, []⟩).1 ⟨rfl, rfl, by decide⟩

/-! ## Server session pipeline: run lemmas -/

lemma serverRun_append (s : ServerState) (l1 l2 : List SAct) :
    serverRun s (l1 ++ l2) =
      ((serverRun (serverRun s l1).1 l2).1,
       (serverRun s l1).2 ++ (serverRun (serverRun s l1).1 l2).2) := by
  induction l1 generalizing s with
  | nil => simp [serverRun]
  | cons a t ih => simp [serverRun, ih, List.append_assoc]

/-- A `connection` event touches only the client set: the history store
and the arrival log are untouched, nothing is sent, and afterwards the
connection is present in `wss.clients`. -/
lemma serverAct_connect_spec (s : ServerState) (sid : Nat) :
    (serverAct s (SAct.connect sid)).1.roomHistory = s.roomHistory
    ∧ (serverAct s (SAct.connect sid)).1.log = s.log
    ∧ (serverAct s (SAct.connect sid)).2 = []
    ∧ (findClient (serverAct s (SAct.connect sid)).1.clients sid).isSome := by
  by_cases h : s.clients.any fun c => c.sid = sid
  · refine ⟨by simp [serverAct, h], by simp [serverAct, h],
      by simp [serverAct, h], ?_⟩
    rcases List.any_eq_true.mp h with ⟨c, hc, hcs⟩
    simp only [serverAct, h, if_pos, findClient, List.find?_isSome]
    exact ⟨c, hc, hcs⟩
  · refine ⟨by simp [serverAct, h], by simp [serverAct, h],
      by simp [serverAct, h], ?_⟩
    simp only [serverAct, h, if_neg, findClient, List.find?_isSome]
    exact ⟨⟨sid, OPEN, none⟩, by simp, by simp⟩

/-- The `join` branch: bind the session's room, create the room's history
entry if absent, and reply — to this session only — with a `history` frame
holding the room's currently stored events. -/
lemma serverStep_join (s : ServerState) (sid : Nat) (r pl : String)
    (ws : Session) (hf : findClient s.clients sid = some ws) :
    serverStep s sid (some ⟨"join", r, pl⟩) =
      ({ s with
          clients := bindRoom s.clients sid r,
          roomHistory :=
            if (mapGet s.roomHistory r).isSome then s.roomHistory
            else mapSet s.roomHistory r [] },
        [Out.history sid r (histEvents s r)]) := by
  by_cases hr : (mapGet s.roomHistory r).isSome
  · simp [serverStep, hf, hr, histEvents]
  · have hn : mapGet s.roomHistory r = none :=
      Option.not_isSome_iff_eq_none.mp hr
    simp [serverStep, hf, hr, histEvents, hn, mapGet_mapSet_self]

lemma histMatchesLog_init : histMatchesLog initServer := by
  intro r
  simp [initServer, histEvents, mapGet]

lemma histMatchesLog_step (s : ServerState) (sid : Nat)
    (raw : Option WireMsg) (h : histMatchesLog s) :
    histMatchesLog (serverStep s sid raw).1 := by
  intro r2
  cases hf : findClient s.clients sid with
  | none => simpa [serverStep, hf] using h r2
  | some ws =>
    cases raw with
    | none => simpa [serverStep, hf] using h r2
    | some msg =>
      by_cases hj : msg.type = "join"
      · by_cases hr : (mapGet s.roomHistory msg.room).isSome
        · simpa [serverStep, hf, hj, hr, histEvents] using h r2
        · have hn : mapGet s.roomHistory msg.room = none :=
            Option.not_isSome_iff_eq_none.mp hr
          by_cases he : msg.room = r2
          · subst he
            have h2 := h msg.room
            simp only [histEvents, hn, Option.getD_none] at h2
            simp [serverStep, hf, hj, hr, histEvents, mapGet_mapSet_self,
              ← h2]
          · simpa [serverStep, hf, hj, hr, histEvents,
              mapGet_mapSet_ne _ _ _ _ he] using h r2
      · cases ht : truthyRoom ws.room with
        | false => simpa [serverStep, hf, hj, ht] using h r2
        | true =>
          by_cases he : ws.room.getD "" = r2
          · subst he
            have h2 := h (ws.room.getD "")
            simp only [histEvents] at h2
            simp [serverStep, hf, hj, ht, histEvents, mapGet_mapSet_self,
              List.filter_append, h2]
          · have h2 := h r2
            simp only [histEvents] at h2
            simp [serverStep, hf, hj, ht, histEvents,
              mapGet_mapSet_ne _ _ _ _ he, List.filter_append, h2, he]

lemma histMatchesLog_act (s : ServerState) (a : SAct)
    (h : histMatchesLog s) : histMatchesLog (serverAct s a).1 := by
  cases a with
  | connect sid =>
    intro r2
    by_cases hc : s.clients.any fun c => c.sid = sid <;>
      simpa [serverAct, hc, histEvents] using h r2
  | recv sid raw => exact histMatchesLog_step s sid raw h
  | disconnect sid =>
    intro r2
    simpa [serverAct, histEvents] using h r2

lemma histMatchesLog_run (s : ServerState) (acts : List SAct)
    (h : histMatchesLog s) : histMatchesLog (serverRun s acts).1 := by
  induction acts generalizing s with
  | nil => simpa [serverRun] using h
  | cons a t ih => exact ih _ (histMatchesLog_act s a h)

/-- C1.  Append-order fidelity: run any sequence of transport actions
from the initial server; when a session then connects and joins room `r`,
the `history` frame it receives carries exactly the events of room `r`
from the arrival-ordered log — element for element, in server arrival
order, with nothing missing, duplicated or reordered. -/
theorem history_append_order_fidelity (acts : List SAct) (sid : Nat)
    (r pl : String) :
    (serverRun initServer
        (acts ++ [SAct.connect sid,
                  SAct.recv sid (some ⟨"join", r, pl⟩)])).2
      = (serverRun initServer acts).2 ++
        [Out.history sid r
          ((serverRun initServer acts).1.log.filter fun e => e.room = r)] := by
  have hinv := histMatchesLog_run initServer acts histMatchesLog_init
  rw [serverRun_append]
  obtain ⟨hh, hl, ho, hs⟩ :=
    serverAct_connect_spec (serverRun initServer acts).1 sid
  obtain ⟨ws, hw⟩ := Option.isSome_iff_exists.mp hs
  have hjoin := serverStep_join
    (serverAct (serverRun initServer acts).1 (SAct.connect sid)).1 sid r pl
    ws hw
  have hsub : (serverRun (serverRun initServer acts).1
      [SAct.connect sid, SAct.recv sid (some ⟨"join", r, pl⟩)]).2
      = [Out.history sid r (histEvents (serverRun initServer acts).1 r)] := by
    show (serverAct (serverRun initServer acts).1 (SAct.connect sid)).2 ++
        ((serverStep
            (serverAct (serverRun initServer acts).1 (SAct.connect sid)).1
            sid (some ⟨"join", r, pl⟩)).2 ++ []) =
      [Out.history sid r (histEvents (serverRun initServer acts).1 r)]
    rw [ho, hjoin]
    simp [histEvents, hh]
  rw [hsub, hinv r]

/-- C7.  The server is authoritative for the `room` field: a non-`join`
message accepted from a session bound to room `r` is appended to the
history and handed to the broadcast router with its `room` field
overwritten to `r`; the client-supplied `msg.room` value appears in
neither the stored event nor the broadcast payload. -/
theorem server_stamps_bound_room (s : ServerState) (sid : Nat)
    (msg : WireMsg) (ws : Session) (r : String)
    (hf : findClient s.clients sid = some ws)
    (hj : msg.type ≠ "join")
    (hr : ws.room = some r) (hne : r ≠ "") :
    serverStep s sid (some msg) =
      ({ s with
          roomHistory := mapSet s.roomHistory r
            (histEvents s r ++ [{ msg with room := r }]),
          log := s.log ++ [{ msg with room := r }] },
        broadcastSends s.clients r { msg with room := r } sid) := by
  have ht : truthyRoom (some r) = true := by simp [truthyRoom, hne]
  simp [serverStep, hf, hj, hr, ht, histEvents]

/-- C7 witness: a `move` claiming room `"evil"` from a session bound to
`"r1"` is stored and logged as a `"r1"` event. -/
theorem server_stamps_bound_room_witness :
    serverStep ⟨[("r1", [])], [⟨0, OPEN, some "r1"⟩], []⟩ 0
        (some ⟨"move", "evil", "pts"⟩) =
      (⟨[("r1", [⟨"move", "r1", "pts"⟩])], [⟨0, OPEN, some "r1"⟩],
        [⟨"move", "r1", "pts"⟩]⟩, ([] : List Out)) := by
  have := server_stamps_bound_room ⟨[("r1", [])], [⟨0, OPEN, some "r1"⟩], []⟩
    0 ⟨"move", "evil", "pts"⟩ ⟨0, OPEN, some "r1"⟩ "r1" (by decide)
    (by decide) rfl (by decide)
  rw [this]
  decide

/-- C9.  An unparseable frame, or a non-`join` frame from a connected but
unbound session, mutates nothing: the whole server state (history, client
set, room bindings) is unchanged and nothing is sent — the model has no
close output at all, so the connection stays open — and a subsequent run
proceeds exactly as if the bad frame had never arrived. -/
theorem bad_or_unbound_frame_is_noop (s : ServerState) (sid : Nat)
    (raw : Option WireMsg) (rest : List SAct)
    (h : raw = none ∨
      ∃ msg ws, raw = some msg ∧ msg.type ≠ "join" ∧
        findClient s.clients sid = some ws ∧ ws.room = none) :
    serverStep s sid raw = (s, []) ∧
    serverRun s (SAct.recv sid raw :: rest) = serverRun s rest := by
  have hstep : serverStep s sid raw = (s, []) := by
    rcases h with rfl | ⟨msg, ws, rfl, hj, hf, hr⟩
    · cases hfc : findClient s.clients sid <;> simp [serverStep, hfc]
    · simp [serverStep, hf, hj, truthyRoom, hr]
  refine ⟨hstep, ?_⟩
  simp [serverRun, serverAct, hstep]

/-- C9 witness: a `move` frame on a fresh, unbound connection leaves the
server untouched. -/
theorem bad_or_unbound_frame_is_noop_witness :
    serverStep ⟨[], [⟨0, OPEN, none⟩], []⟩ 0 (some ⟨"move", "r1", "p"⟩) =
      (⟨[], [⟨0, OPEN, none⟩], []⟩, []) ∧
    serverRun ⟨[], [⟨0, OPEN, none⟩], []⟩
        [SAct.recv 0 (some ⟨"move", "r1", "p"⟩)] =
      serverRun ⟨[], [⟨0, OPEN, none⟩], []⟩ [] :=
  bad_or_unbound_frame_is_noop ⟨[], [⟨0, OPEN, none⟩], []⟩ 0
    (some ⟨"move", "r1", "p"⟩) []
    (Or.inr ⟨⟨"move", "r1", "p"⟩, ⟨0, OPEN, none⟩, rfl, by decide, rfl, rfl⟩)

/-! ## Event kinds stored in room history (C3) -/

lemma all_mapSet {β : Type} (p : β → Bool) (m : List (String × β))
    (k : String) (v : β) (hm : (m.all fun kv => p kv.2) = true)
    (hv : p v = true) :
    ((mapSet m k v).all fun kv => p kv.2) = true := by
  induction m with
  | nil => simp [mapSet, hv]
  | cons kv t ih =>
    simp only [List.all_cons, Bool.and_eq_true] at hm
    by_cases h0 : kv.1 = k <;>
      simp [mapSet, h0, hv, hm.1, hm.2, ih hm.2]

lemma all_mapGet {β : Type} (p : β → Bool) (m : List (String × β))
    (k : String) (v : β) (hm : (m.all fun kv => p kv.2) = true)
    (hg : mapGet m k = some v) : p v = true := by
  induction m with
  | nil => simp [mapGet] at hg
  | cons kv t ih =>
    simp only [List.all_cons, Bool.and_eq_true] at hm
    by_cases h0 : kv.1 = k
    · simp only [mapGet, h0, if_pos, Option.some_inj] at hg
      exact hg ▸ hm.1
    · simp only [mapGet, h0, if_neg, ite_false] at hg
      exact ih hm.2 hg

lemma histAllDrawKind_step (s : ServerState) (sid : Nat)
    (raw : Option WireMsg) (hs : histAllDrawKind s = true)
    (hmsg : ∀ m : WireMsg, raw = some m →
      (m.type = "join" || isDrawKind m.type) = true) :
    histAllDrawKind (serverStep s sid raw).1 = true := by
  have hs2 : (s.roomHistory.all fun kv =>
      (fun l => l.all fun e => isDrawKind e.type) kv.2) = true := hs
  cases hf : findClient s.clients sid with
  | none => simpa [serverStep, hf] using hs
  | some ws =>
    cases raw with
    | none => simpa [serverStep, hf] using hs
    | some msg =>
      by_cases hj : msg.type = "join"
      · by_cases hr : (mapGet s.roomHistory msg.room).isSome
        · simpa [serverStep, hf, hj, hr] using hs
        · have hgoal := all_mapSet
            (fun l => l.all fun e => isDrawKind e.type)
            s.roomHistory msg.room [] hs2 (by simp)
          simpa [serverStep, hf, hj, hr, histAllDrawKind] using hgoal
      · cases ht : truthyRoom ws.room with
        | false => simpa [serverStep, hf, hj, ht] using hs
        | true =>
          have hk : isDrawKind msg.type = true := by
            have := hmsg msg rfl
            simpa [hj] using this
          have happend :
              (((mapGet s.roomHistory (ws.room.getD "")).getD []) ++
                  [{ msg with room := ws.room.getD "" }]).all
                (fun e => isDrawKind e.type) = true := by
            rw [List.all_append]
            cases hg : mapGet s.roomHistory (ws.room.getD "") with
            | none => simp [hk]
            | some evs =>
              have hv := all_mapGet
                (fun l => l.all fun e => isDrawKind e.type)
                s.roomHistory (ws.room.getD "") evs hs2 hg
              simp [hv, hk]
          have hgoal := all_mapSet
            (fun l => l.all fun e => isDrawKind e.type)
            s.roomHistory (ws.room.getD "") _ hs2 happend
          simpa [serverStep, hf, hj, ht, histAllDrawKind] using hgoal

lemma histAllDrawKind_act (s : ServerState) (a : SAct)
    (hs : histAllDrawKind s = true)
    (ha : (match a with
      | SAct.recv _ (some m) => m.type = "join" || isDrawKind m.type
      | _ => true) = true) :
    histAllDrawKind (serverAct s a).1 = true := by
  cases a with
  | connect sid =>
    by_cases hc : s.clients.any fun c => c.sid = sid <;>
      simpa [serverAct, hc] using hs
  | recv sid raw =>
    refine histAllDrawKind_step s sid raw hs ?_
    intro m hm
    cases raw with
    | none => cases hm
    | some m2 =>
      cases hm
      exact ha
  | disconnect sid => simpa [serverAct] using hs

lemma histAllDrawKind_run (s : ServerState) (acts : List SAct)
    (hs : histAllDrawKind s = true) (h : actsDrawOnly acts = true) :
    histAllDrawKind (serverRun s acts).1 = true := by
  induction acts generalizing s with
  | nil => simpa [serverRun] using hs
  | cons a t ih =>
    simp only [actsDrawOnly, List.all_cons, Bool.and_eq_true] at h
    exact ih (serverAct s a).1 (histAllDrawKind_act s a hs h.1)
      (by simpa [actsDrawOnly] using h.2)

/-- C3 (counterexample).  The server does not restrict the kinds it
records: after a session joins room `"r1"` and then sends a frame of type
`"history"`, that frame is appended to room `"r1"`'s history, so it is not
the case that every stored event has kind `begin`, `move` or `end`. -/
theorem history_records_nondraw_kind :
    ¬ (∀ e ∈ histEvents
        (serverRun initServer
          [SAct.connect 0,
           SAct.recv 0 (some ⟨"join", "r1", "j"⟩),
           SAct.recv 0 (some ⟨"history", "x", "h"⟩)]).1 "r1",
        e.type = "begin" ∨ e.type = "move" ∨ e.type = "end") := by
  decide

/-- C3 (amended).  The server appends every parsed non-`join` message from
a bound session to the room history regardless of its kind; so the
history's events all have kind `begin`, `move` or `end` provided every
non-`join` frame the clients send has one of those kinds — which is all
this repository's client ever sends. -/
theorem history_kinds_follow_client_kinds (acts : List SAct)
    (h : actsDrawOnly acts = true) :
    histAllDrawKind (serverRun initServer acts).1 = true :=
  histAllDrawKind_run initServer acts (by decide) h

/-- C3 witness: a join followed by a `begin` and a `move` leaves a history
of drawing kinds only. -/
theorem history_kinds_follow_client_kinds_witness :
    histAllDrawKind
      (serverRun initServer
        [SAct.connect 0,
         SAct.recv 0 (some ⟨"join", "r1", "j"⟩),
         SAct.recv 0 (some ⟨"begin", "r1", "b"⟩),
         SAct.recv 0 (some ⟨"move", "r1", "m"⟩)]).1 = true :=
  history_kinds_follow_client_kinds
    [SAct.connect 0,
     SAct.recv 0 (some ⟨"join", "r1", "j"⟩),
     SAct.recv 0 (some ⟨"begin", "r1", "b"⟩),
     SAct.recv 0 (some ⟨"move", "r1", "m"⟩)] (by decide)

/-! ## The event branch's history lookup never misses -/

lemma mapGet_mapSet_isSome {β : Type} (m : List (String × β))
    (k k2 : String) (v : β) (h : (mapGet m k2).isSome = true) :
    (mapGet (mapSet m k v) k2).isSome = true := by
  by_cases hk : k = k2
  · subst hk
    rw [mapGet_mapSet_self]
    rfl
  · rw [mapGet_mapSet_ne _ _ _ _ hk]
    exact h

lemma boundRoomsHaveHistory_step (s : ServerState) (sid : Nat)
    (raw : Option WireMsg) (h : boundRoomsHaveHistory s) :
    boundRoomsHaveHistory (serverStep s sid raw).1 := by
  cases hf : findClient s.clients sid with
  | none => simpa [serverStep, hf] using h
  | some ws =>
    cases raw with
    | none => simpa [serverStep, hf] using h
    | some msg =>
      by_cases hj : msg.type = "join"
      · intro c hc r hr
        simp only [serverStep, hf, hj, if_pos] at hc ⊢
        rcases List.mem_map.mp hc with ⟨c0, hc0, rfl⟩
        have hsome : (mapGet
            (if (mapGet s.roomHistory msg.room).isSome then s.roomHistory
             else mapSet s.roomHistory msg.room []) msg.room).isSome = true := by
          by_cases hm : (mapGet s.roomHistory msg.room).isSome
          · simp [hm]
          · simp [hm, mapGet_mapSet_self]
        by_cases hcs : c0.sid = sid
        · simp only [hcs, if_pos] at hr
          have : r = msg.room := by
            have := hr
            simp at this
            exact this.symm
          subst this
          exact hsome
        · simp only [hcs, if_neg, ite_false] at hr
          have hold := h c0 hc0 r hr
          by_cases hm : (mapGet s.roomHistory msg.room).isSome
          · simpa [hm] using hold
          · simp only [hm, if_neg, ite_false]
            exact mapGet_mapSet_isSome _ _ _ _ hold
      · cases ht : truthyRoom ws.room with
        | false => simpa [serverStep, hf, hj, ht] using h
        | true =>
          intro c hc r hr
          simp only [serverStep, hf, hj, ht, if_false, if_true] at hc ⊢
          exact mapGet_mapSet_isSome _ _ _ _ (h c hc r hr)

lemma boundRoomsHaveHistory_act (s : ServerState) (a : SAct)
    (h : boundRoomsHaveHistory s) :
    boundRoomsHaveHistory (serverAct s a).1 := by
  cases a with
  | connect sid =>
    by_cases hany : s.clients.any fun c => c.sid = sid
    · simpa [serverAct, hany] using h
    · intro c hc r hr
      have hc2 : c ∈ s.clients ∨ c = ⟨sid, OPEN, none⟩ := by
        simpa [serverAct, hany] using hc
      have hhist : (serverAct s (SAct.connect sid)).1.roomHistory
          = s.roomHistory := by
        simp [serverAct, hany]
      rw [hhist]
      rcases hc2 with hc2 | rfl
      · exact h c hc2 r hr
      · cases hr
  | recv sid raw => exact boundRoomsHaveHistory_step s sid raw h
  | disconnect sid =>
    intro c hc r hr
    simp only [serverAct, List.mem_filter] at hc ⊢
    exact h c hc.1 r hr

/-- On every reachable server state, a session's bound room has a history
entry: the `getD []` fallback in the model's event branch (standing for
JS `roomHistory.get(ws.room)`) is never exercised. -/
lemma bound_room_has_history (acts : List SAct) :
    boundRoomsHaveHistory (serverRun initServer acts).1 := by
  have hrun : ∀ s : ServerState, boundRoomsHaveHistory s →
      boundRoomsHaveHistory (serverRun s acts).1 := by
    induction acts with
    | nil => intro s h; simpa [serverRun] using h
    | cons a t ih =>
      intro s h
      exact ih _ (boundRoomsHaveHistory_act s a h)
  refine hrun initServer ?_
  intro c hc
  simp [initServer] at hc

/-! ## Local batching layer: no point lost or duplicated (C5) -/

lemma clientRun_append (room userId color : String) (width : Int)
    (s : ClientState) (l1 l2 : List CAct) :
    clientRun room userId color width s (l1 ++ l2) =
      clientRun room userId color width
        (clientRun room userId color width s l1) l2 := by
  induction l1 generalizing s with
  | nil => simp [clientRun]
  | cons a t ih => simp [clientRun, ih]

lemma movePtsConcat_append (l1 l2 : List CliMsg) :
    movePtsConcat (l1 ++ l2) = movePtsConcat l1 ++ movePtsConcat l2 := by
  induction l1 with
  | nil => simp [movePtsConcat]
  | cons m t ih => cases m <;> simp [movePtsConcat, ih]

/-- `flushMoveBuffer` on an existing `OPEN` socket: a no-op on an empty
buffer, otherwise drain-and-send. -/
lemma flushMoveBuffer_open (room userId : String) (s : ClientState)
    (hws : s.wsExists = true) (hopen : s.readyState = OPEN) :
    flushMoveBuffer room userId s =
      if s.moveBuffer = [] then s
      else { s with moveBuffer := [],
                    sent := s.sent ++ [CliMsg.move room userId s.moveBuffer] } := by
  by_cases hb : s.moveBuffer = [] <;>
    simp [flushMoveBuffer, hws, hopen, List.length_eq_zero, hb]

/-- Mid-stroke invariant: over any sequence of pointer samples and timer
fires with a live `OPEN` socket, the drawing flag and socket fields are
preserved, only `move` messages are emitted, and the emitted points plus
the residual buffer are exactly the prior buffer plus the samples, in
order. -/
lemma clientRun_mid_spec (room userId color : String) (width : Int)
    (acts : List CAct) :
    ∀ s : ClientState, acts.all midAct = true → s.localDrawing = true →
      s.wsExists = true → s.readyState = OPEN →
      (clientRun room userId color width s acts).localDrawing = true ∧
      (clientRun room userId color width s acts).wsExists = true ∧
      (clientRun room userId color width s acts).readyState = OPEN ∧
      ∃ new : List CliMsg,
        (clientRun room userId color width s acts).sent = s.sent ++ new ∧
        new.all isMoveMsg = true ∧
        movePtsConcat new ++
            (clientRun room userId color width s acts).moveBuffer =
          s.moveBuffer ++ samples acts := by
  induction acts with
  | nil =>
    intro s _ h1 h2 h3
    exact ⟨h1, h2, h3, [], by simp [clientRun], rfl,
      by simp [clientRun, samples, movePtsConcat]⟩
  | cons a t ih =>
    intro s hmid h1 h2 h3
    simp only [List.all_cons, Bool.and_eq_true] at hmid
    obtain ⟨ha, hts⟩ := hmid
    cases a with
    | pointerDown p => simp [midAct] at ha
    | pointerUp => simp [midAct] at ha
    | pointerMove p =>
      by_cases hT : s.flushTimer
      · have hstep : clientStep room userId color width s (CAct.pointerMove p)
            = { s with moveBuffer := s.moveBuffer ++ [p] } := by
          simp [clientStep, h1, scheduleFlush, hT]
        simp only [clientRun, hstep]
        obtain ⟨d, w, o, new, hsent, hall, hcat⟩ :=
          ih { s with moveBuffer := s.moveBuffer ++ [p] } hts h1 h2 h3
        refine ⟨d, w, o, new, hsent, hall, ?_⟩
        simpa [samples, List.append_assoc] using hcat
      · have hstep : clientStep room userId color width s (CAct.pointerMove p)
            = { s with moveBuffer := s.moveBuffer ++ [p], flushTimer := true } := by
          simp [clientStep, h1, scheduleFlush, hT]
        simp only [clientRun, hstep]
        obtain ⟨d, w, o, new, hsent, hall, hcat⟩ :=
          ih { s with moveBuffer := s.moveBuffer ++ [p], flushTimer := true }
            hts h1 h2 h3
        refine ⟨d, w, o, new, hsent, hall, ?_⟩
        simpa [samples, List.append_assoc] using hcat
    | timerFire =>
      by_cases hT : s.flushTimer
      · by_cases hb : s.moveBuffer = []
        · have hstep : clientStep room userId color width s CAct.timerFire
              = { s with flushTimer := false } := by
            simp [clientStep, hT, flushMoveBuffer, h2, h3, hb]
          simp only [clientRun, hstep]
          obtain ⟨d, w, o, new, hsent, hall, hcat⟩ :=
            ih { s with flushTimer := false } hts h1 h2 h3
          refine ⟨d, w, o, new, hsent, hall, ?_⟩
          simpa [samples] using hcat
        · have hstep : clientStep room userId color width s CAct.timerFire
              = { s with
                  flushTimer := false,
                  moveBuffer := [],
                  sent := s.sent ++
                    [CliMsg.move room userId s.moveBuffer] } := by
            simp [clientStep, hT, flushMoveBuffer, h2, h3,
              List.length_eq_zero, hb]
          simp only [clientRun, hstep]
          obtain ⟨d, w, o, new, hsent, hall, hcat⟩ :=
            ih { s with
                 flushTimer := false,
                 moveBuffer := [],
                 sent := s.sent ++
                   [CliMsg.move room userId s.moveBuffer] }
              hts h1 h2 h3
          refine ⟨d, w, o, CliMsg.move room userId s.moveBuffer :: new, ?_, ?_, ?_⟩
          · simpa [List.append_assoc] using hsent
          · simpa [isMoveMsg] using hall
          · simp only [movePtsConcat, samples, List.append_assoc]
            simpa [samples] using hcat
      · have hstep : clientStep room userId color width s CAct.timerFire = s := by
          simp [clientStep, hT]
        simp only [clientRun, hstep]
        obtain ⟨d, w, o, new, hsent, hall, hcat⟩ := ih s hts h1 h2 h3
        exact ⟨d, w, o, new, hsent, hall, by simpa [samples] using hcat⟩

/-- `onPointerUp` while drawing with a live `OPEN` socket: stop drawing,
force-flush whatever is buffered, then send `end`. -/
lemma clientStep_pointerUp (room userId color : String) (width : Int)
    (s : ClientState) (h1 : s.localDrawing = true) (h2 : s.wsExists = true)
    (h3 : s.readyState = OPEN) :
    clientStep room userId color width s CAct.pointerUp =
      if s.moveBuffer = [] then
        { s with
          localDrawing := false,
          sent := s.sent ++ [CliMsg.endStroke room userId] }
      else
        { s with
          localDrawing := false,
          moveBuffer := [],
          sent := (s.sent ++ [CliMsg.move room userId s.moveBuffer]) ++
            [CliMsg.endStroke room userId] } := by
  by_cases hb : s.moveBuffer = [] <;>
    simp [clientStep, h1, h2, h3, flushMoveBuffer, List.length_eq_zero, hb]

/-- C5.  With the socket `OPEN` for the whole stroke (the model's client
turns never change the ready state), run any interleaving of pointer
samples and timer fires after stroke start, then a pointer-up: the final
send sequence is some `move` messages followed by a single `end`, the
concatenation of the `move` messages' `pts` arrays is exactly the sampled
points in push order (each point transmitted exactly once, none dropped),
and the forced flush on stroke end has left the buffer empty before the
`end` was sent. -/
theorem batching_transmits_every_point_once (room userId color : String)
    (width : Int) (s0 : ClientState) (acts : List CAct)
    (hmid : acts.all midAct = true)
    (hws : s0.wsExists = true) (hopen : s0.readyState = OPEN)
    (hdraw : s0.localDrawing = true) (hbuf : s0.moveBuffer = [])
    (hsent : s0.sent = []) :
    (clientRun room userId color width s0
        (acts ++ [CAct.pointerUp])).moveBuffer = [] ∧
    (clientRun room userId color width s0 (acts ++ [CAct.pointerUp])).sent =
      (clientRun room userId color width s0
          (acts ++ [CAct.pointerUp])).sent.dropLast ++
        [CliMsg.endStroke room userId] ∧
    ((clientRun room userId color width s0
        (acts ++ [CAct.pointerUp])).sent.dropLast).all isMoveMsg = true ∧
    movePtsConcat
        ((clientRun room userId color width s0
          (acts ++ [CAct.pointerUp])).sent.dropLast) = samples acts := by
  rw [clientRun_append]
  obtain ⟨h1, h2, h3, new, hsent1, hall, hcat⟩ :=
    clientRun_mid_spec room userId color width acts s0 hmid hdraw hws hopen
  rw [hsent] at hsent1
  rw [hbuf] at hcat
  simp only [List.nil_append] at hsent1 hcat
  generalize hgen : clientRun room userId color width s0 acts = s1 at h1 h2 h3 hsent1 hcat ⊢
  have hrun : clientRun room userId color width s1 [CAct.pointerUp]
      = clientStep room userId color width s1 CAct.pointerUp := rfl
  rw [hrun, clientStep_pointerUp room userId color width s1 h1 h2 h3]
  by_cases hb : s1.moveBuffer = []
  · rw [if_pos hb]
    rw [hb] at hcat
    simp only [List.append_nil] at hcat
    refine ⟨hb, ?_, ?_, ?_⟩
    · simp [hsent1]
    · simp [hsent1, List.dropLast_concat, hall]
    · simp [hsent1, List.dropLast_concat, hcat]
  · rw [if_neg hb]
    refine ⟨rfl, ?_, ?_, ?_⟩
    · simp
    · simp only [List.dropLast_concat, hsent1, List.all_append,
        Bool.and_eq_true]
      exact ⟨hall, by simp [isMoveMsg]⟩
    · simp only [List.dropLast_concat, hsent1, movePtsConcat_append]
      simpa [movePtsConcat] using hcat

/-- C5 witness: two samples, a timer fire, a third sample, then pointer
up: every sampled point is sent exactly once, in order, and the `end`
message comes last. -/
theorem batching_transmits_every_point_once_witness :
    (clientRun "r1" "u1" "#000" 2 ⟨true, OPEN, true, [], false, []⟩
        ([CAct.pointerMove (1, 1), CAct.pointerMove (2, 2), CAct.timerFire,
          CAct.pointerMove (3, 3)] ++ [CAct.pointerUp])).moveBuffer = [] ∧
    (clientRun "r1" "u1" "#000" 2 ⟨true, OPEN, true, [], false, []⟩
        ([CAct.pointerMove (1, 1), CAct.pointerMove (2, 2), CAct.timerFire,
          CAct.pointerMove (3, 3)] ++ [CAct.pointerUp])).sent =
      (clientRun "r1" "u1" "#000" 2 ⟨true, OPEN, true, [], false, []⟩
          ([CAct.pointerMove (1, 1), CAct.pointerMove (2, 2), CAct.timerFire,
            CAct.pointerMove (3, 3)] ++ [CAct.pointerUp])).sent.dropLast ++
        [CliMsg.endStroke "r1" "u1"] ∧
    ((clientRun "r1" "u1" "#000" 2 ⟨true, OPEN, true, [], false, []⟩
        ([CAct.pointerMove (1, 1), CAct.pointerMove (2, 2), CAct.timerFire,
          CAct.pointerMove (3, 3)] ++ [CAct.pointerUp])).sent.dropLast).all
      isMoveMsg = true ∧
    movePtsConcat
        ((clientRun "r1" "u1" "#000" 2 ⟨true, OPEN, true, [], false, []⟩
          ([CAct.pointerMove (1, 1), CAct.pointerMove (2, 2), CAct.timerFire,
            CAct.pointerMove (3, 3)] ++ [CAct.pointerUp])).sent.dropLast) =
      samples [CAct.pointerMove (1, 1), CAct.pointerMove (2, 2),
        CAct.timerFire, CAct.pointerMove (3, 3)] :=
  batching_transmits_every_point_once "r1" "u1" "#000" 2
    ⟨true, OPEN, true, [], false, []⟩
    [CAct.pointerMove (1, 1), CAct.pointerMove (2, 2), CAct.timerFire,
      CAct.pointerMove (3, 3)]
    (by decide) rfl rfl rfl rfl rfl

end Canvas
